import Mathlib

/-!
Verification of the `libgo` repository (packages `pkg/climd` and `pkg/envy`)
against its natural-language specification.

The Go sources are shallowly embedded:

* Go strings are Lean `String`s; the few `strings` standard-library helpers
  the code uses (`HasPrefix`, `Split`, `TrimSpace`) are re-implemented below
  over `String.data` as structurally recursive functions so that all
  definitions are executable and kernel-reducible.
* `pkg/climd`: the command dispatcher `Run` and the token classifier
  `parseArgs` are embedded directly.  Handler functions
  (`Command.Run`/`SubCommand.Run` in Go) are caller-supplied callbacks; the
  embedding records an invocation together with the exact arguments the
  handler receives in the `RunOutcome.invoked` constructor instead of
  executing an arbitrary function, and the printing paths of `Run` are
  recorded by the remaining `RunOutcome` constructors.
* `pkg/envy`: reflection-driven struct traversal is embedded as an explicit
  field-descriptor tree (`Field`) walked over a value tree (`Value`), with
  the process environment as a function `String → String` (as with
  `os.Getenv`, an unset variable is indistinguishable from one set to the
  empty string).  `strconv.ParseInt/ParseUint/ParseBool` are implemented
  concretely; `strconv.ParseFloat` is an external collaborator and is
  abstracted as a success predicate `pf : String → Bool` threaded through
  the definitions, with an accepted float kept as its source text.
-/

namespace Util

/-- `strings.HasPrefix s pre` (byte-wise in Go, character-wise here). -/
def strStartsWith (s p : String) : Bool := p.data.isPrefixOf s.data

/-- `s[n:]` on a string (all Go slicing done by the embedded code is at
ASCII offsets, where byte and character indices coincide). -/
def strDrop (s : String) (n : Nat) : String := ⟨s.data.drop n⟩

/-- `len s` (character count; the embedded code only compares it to 1 on
flag tokens, where bytes and characters coincide). -/
def strLen (s : String) : Nat := s.data.length

/-- `strings.TrimSpace` (Unicode whitespace classes beyond
`Char.isWhitespace` are irrelevant to the properties proved here). -/
def trimSpace (s : String) : String :=
  ⟨((s.data.dropWhile Char.isWhitespace).reverse.dropWhile Char.isWhitespace).reverse⟩

/-- Worker for `strings.Split s ","` on character lists. -/
def splitCommaCL : List Char → List (List Char)
  | [] => [[]]
  | ',' :: rest => [] :: splitCommaCL rest
  | c :: rest =>
    match splitCommaCL rest with
    | s :: ss => (c :: s) :: ss
    | [] => [[c]]

/-- `strings.Split s ","`. -/
def splitComma (s : String) : List String := (splitCommaCL s.data).map fun l => ⟨l⟩

end Util

namespace Climd

open Util

/-- `climd.Flag` (src/pkg/climd/climd.go:13). -/
structure Flag where
  Name : String := ""
  Short : String := ""
  Value : String := ""
  Usage : String := ""
  Required : Bool := false
deriving DecidableEq

/-- `climd.SubCommand` (climd.go:22).  The `Run` handler field is a
caller-supplied callback; its invocation is recorded by
`RunOutcome.invoked`, so the embedding carries no function value. -/
structure SubCommand where
  Name : String := ""
  Short : String := ""
  Long : String := ""
  Flags : List Flag := []
deriving DecidableEq

/-- `climd.Command` (climd.go:31); the `Run` handler field is modelled as in
`SubCommand`. -/
structure Command where
  Name : String := ""
  Short : String := ""
  Long : String := ""
  Flags : List Flag := []
  SubCommands : List SubCommand := []
deriving DecidableEq

/-- `climd.AppConfig` (climd.go:41). -/
structure AppConfig where
  Name : String := ""
  Version : String := ""
  Description : String := ""
  Commands : List Command := []
deriving DecidableEq

/-- The Go `map[string]string` of parsed flags, as an association list whose
lookup agrees with the map (`mapInsert` overwrites an existing key). -/
abbrev FlagMap := List (String × String)

/-- `cmdFlags[flagName] = value` on a Go map: overwrite the key if present,
otherwise add it. -/
def mapInsert (m : FlagMap) (k v : String) : FlagMap :=
  if m.any fun p => p.1 == k then m.map fun p => if p.1 == k then (k, v) else p
  else m ++ [(k, v)]

/-- The `isKnownFlag` scan of climd.go:156-162 and 183-189 (the two loops
test `Name`/`Short` in different order, but compute the same Boolean). -/
def isKnownFlag (flags : List Flag) (flagName : String) : Bool :=
  flags.any fun f => f.Name == flagName || f.Short == flagName

/-- The `for i < len(args)` loop of `parseArgs` (climd.go:149-211), with the
loop state (remaining tokens, `cmdArgs`, `cmdFlags`) made explicit.  Each
iteration consumes one token, or two when a recognized flag takes a value. -/
def parseArgsLoop (flags : List Flag) :
    List String → List String → FlagMap → List String × FlagMap
  | [], cmdArgs, cmdFlags => (cmdArgs, cmdFlags)
  | arg :: rest, cmdArgs, cmdFlags =>
    if strStartsWith arg "--" then
      let flagName := strDrop arg 2
      if isKnownFlag flags flagName then
        match rest with
        | next :: rest2 =>
          if !strStartsWith next "--" && !strStartsWith next "-" then
            parseArgsLoop flags rest2 cmdArgs (mapInsert cmdFlags flagName next)
          else
            parseArgsLoop flags (next :: rest2) cmdArgs (mapInsert cmdFlags flagName "")
        | [] => parseArgsLoop flags [] cmdArgs (mapInsert cmdFlags flagName "")
      else
        parseArgsLoop flags rest (cmdArgs ++ [arg]) cmdFlags
    else if strStartsWith arg "-" ∧ strLen arg > 1 then
      let flagName := strDrop arg 1
      if isKnownFlag flags flagName then
        match rest with
        | next :: rest2 =>
          if !strStartsWith next "--" && !strStartsWith next "-" then
            parseArgsLoop flags rest2 cmdArgs (mapInsert cmdFlags flagName next)
          else
            parseArgsLoop flags (next :: rest2) cmdArgs (mapInsert cmdFlags flagName "")
        | [] => parseArgsLoop flags [] cmdArgs (mapInsert cmdFlags flagName "")
      else
        parseArgsLoop flags rest (cmdArgs ++ [arg]) cmdFlags
    else
      parseArgsLoop flags rest (cmdArgs ++ [arg]) cmdFlags

/-- `climd.parseArgs` (climd.go:145): separates flags from positional
arguments. -/
def parseArgs (args : List String) (flags : List Flag) : List String × FlagMap :=
  parseArgsLoop flags args [] []

/-- The required-flag check of climd.go:92-104 and 119-131: the first
declared required flag present neither under its long name nor (when a
short name is declared) its short name, with the data of the error message. -/
def checkRequired (flags : List Flag) (cmdFlags : FlagMap) : Option (String × String) :=
  flags.findSome? fun flag =>
    if flag.Required then
      match cmdFlags.lookup flag.Name with
      | some _ => none
      | none =>
        if flag.Short ≠ "" then
          match cmdFlags.lookup flag.Short with
          | some _ => none
          | none => some (flag.Name, flag.Short)
        else some (flag.Name, flag.Short)
    else none

/-- Observable outcome of `climd.Run`: which terminal path was taken, what
was printed, and — for the handler path — the exact data passed to the
handler. -/
inductive RunOutcome where
  /-- `printHelp` was called and `nil` returned. -/
  | helpOk
  /-- The version line was printed and `nil` returned. -/
  | versionOk
  /-- The matched handler was invoked with the given positional arguments
  and flag map; `Run` returns whatever the handler returns. -/
  | invoked (cmd : String) (sub : Option String) (args : List String) (flags : FlagMap)
  /-- "Unknown command" and the help text were printed and an
  `unknown command: name` error returned (climd.go:138-141). -/
  | unknownCommandErr (name : String)
  /-- "Unknown subcommand" and the command help were printed and an
  `unknown subcommand: name` error returned (climd.go:110-113). -/
  | unknownSubErr (cmd sub : String)
  /-- A `required flag --long (or -short) not provided` error was returned
  before any handler ran (climd.go:97/100/124/127). -/
  | missingFlagErr (long short : String)
deriving DecidableEq

/-- Flag parsing, required-flag validation and handler invocation shared by
the command path (climd.go:115-133) and the subcommand path
(climd.go:88-106); the two Go blocks are textually identical up to the flag
schema and handler used. -/
def runWith (cmdName : String) (sub : Option String) (flags : List Flag)
    (toks : List String) : RunOutcome :=
  let parsed := parseArgs toks flags
  match checkRequired flags parsed.2 with
  | some (n, s) => .missingFlagErr n s
  | none => .invoked cmdName sub parsed.1 parsed.2

/-- `climd.Run` (climd.go:49).  `osArgs` stands for the ambient
`os.Args[1:]`, which climd.go:50-52 substitutes for an empty `args`. -/
def Run (config : AppConfig) (osArgs : List String) (args0 : List String) : RunOutcome :=
  let args := if args0.isEmpty then osArgs else args0
  match args with
  | [] => .helpOk
  | a :: rest =>
    if a = "--help" ∨ a = "-h" then .helpOk
    else if a = "--version" ∨ a = "-v" then .versionOk
    else if config.Commands.isEmpty then .helpOk
    else
      match config.Commands.find? fun c => c.Name == a with
      | none => .unknownCommandErr a
      | some cmd =>
        match rest with
        | [] => runWith cmd.Name none cmd.Flags []
        | sub :: rest2 =>
          if cmd.SubCommands.isEmpty then
            runWith cmd.Name none cmd.Flags (sub :: rest2)
          else
            match cmd.SubCommands.find? fun s => s.Name == sub with
            | some sc => runWith cmd.Name (some sc.Name) sc.Flags rest2
            | none => .unknownSubErr cmd.Name sub

end Climd

namespace Envy

open Util

/-- The reflected kind of a struct field, as dispatched on by
`envy.setField` (envy.go:81) and `envy.setSlice` (envy.go:135).  The Go
widths `int8..int64` / `uint8..uint64` / `float32,float64` share one parse
path each (`ParseInt`/`ParseUint`/`ParseFloat` with 64-bit size), so each
family is one constructor; `tOther` stands for every kind the `default`
branches reject. -/
inductive FType where
  | tString
  | tInt
  | tUint
  | tBool
  | tFloat
  | tSlice (elem : FType)
  | tOther
deriving DecidableEq

/-- A struct field as seen by the reflection loop of `envy.parse`
(envy.go:32-47): either a nested struct (recursed into before any tag is
read, so its own tags are irrelevant, envy.go:37-42) or a leaf field with
its Go field name and its `env` / `default` / `required` tags. -/
inductive Field where
  | leaf (name : String) (typ : FType) (envKey dflt req : String)
  | nested (name : String) (fields : List Field)

/-- A runtime field value of the target struct.  A float accepted by
`strconv.ParseFloat` is kept as its source text (see the module comment). -/
inductive Value where
  | vStr (s : String)
  | vInt (n : Int)
  | vUint (n : Nat)
  | vBool (b : Bool)
  | vFloat (raw : String)
  | vSlice (elems : List Value)
  | vStruct (fields : List Value)

/-- The errors `envy.parse`/`setField`/`setSlice` construct, one
constructor per `fmt.Errorf` site (the `%w`-wrapped `strconv` detail text
is not modelled). -/
inductive EnvyError where
  /-- "var \x60key\x60 is required" (envy.go:66). -/
  | missingRequired (envKey : String)
  /-- "invalid int for field F" (envy.go:87). -/
  | invalidInt (field : String)
  /-- "invalid uint for field F" (envy.go:93). -/
  | invalidUint (field : String)
  /-- "invalid bool for field F" (envy.go:99). -/
  | invalidBool (field : String)
  /-- "invalid float for field F" (envy.go:105). -/
  | invalidFloat (field : String)
  /-- "unsupported type ... for field F" (envy.go:111). -/
  | unsupportedType (field : String)
  /-- "invalid int in slice for field F" (envy.go:141). -/
  | invalidIntInSlice (field : String)
  /-- "invalid float in slice for field F" (envy.go:147). -/
  | invalidFloatInSlice (field : String)
  /-- "unsupported slice element type ... for field F" (envy.go:151). -/
  | unsupportedSliceElem (field : String)
deriving DecidableEq

/-- Decimal digit run to a number; `none` on an empty run or a non-digit
(underscores are rejected by `strconv` when an explicit base 10 is given,
as `envy` does). -/
def parseDigits : List Char → Option Nat
  | [] => none
  | cs => go cs 0
where go : List Char → Nat → Option Nat
  | [], acc => some acc
  | c :: rest, acc => if c.isDigit then go rest (acc * 10 + (c.toNat - 48)) else none

/-- `strconv.ParseInt(s, 10, 64)`: optional sign, decimal digits, 64-bit
signed range check. -/
def parseInt64 (s : String) : Option Int :=
  match s.data with
  | '-' :: rest => (parseDigits rest).bind fun n =>
      if n ≤ 2 ^ 63 then some (-(n : Int)) else none
  | '+' :: rest => (parseDigits rest).bind fun n =>
      if n ≤ 2 ^ 63 - 1 then some (n : Int) else none
  | cs => (parseDigits cs).bind fun n =>
      if n ≤ 2 ^ 63 - 1 then some (n : Int) else none

/-- `strconv.ParseUint(s, 10, 64)`: decimal digits (no sign), 64-bit
range check. -/
def parseUint64 (s : String) : Option Nat :=
  (parseDigits s.data).bind fun n => if n < 2 ^ 64 then some n else none

/-- `strconv.ParseBool`: the canonical boolean literal forms. -/
def parseBool (s : String) : Option Bool :=
  if s = "1" ∨ s = "t" ∨ s = "T" ∨ s = "true" ∨ s = "TRUE" ∨ s = "True" then some true
  else if s = "0" ∨ s = "f" ∨ s = "F" ∨ s = "false" ∨ s = "FALSE" ∨ s = "False" then
    some false
  else none

/-- One element coercion inside `envy.setSlice` (envy.go:135-152):
string and the int/float families are supported, everything else hits the
`default` branch.  `pf` is the `strconv.ParseFloat` success predicate. -/
def sliceElem (pf : String → Bool) (elem : FType) (part : String) (fieldName : String) :
    Except EnvyError Value :=
  match elem with
  | .tString => .ok (.vStr part)
  | .tInt =>
    match parseInt64 part with
    | some n => .ok (.vInt n)
    | none => .error (.invalidIntInSlice fieldName)
  | .tFloat =>
    if pf part then .ok (.vFloat part) else .error (.invalidFloatInSlice fieldName)
  | _ => .error (.unsupportedSliceElem fieldName)

/-- The element loop of `envy.setSlice` (envy.go:126-154): empty parts are
skipped, the first element error aborts, results keep split order. -/
def sliceLoop (pf : String → Bool) (elem : FType) (fieldName : String) :
    List String → Except EnvyError (List Value)
  | [] => .ok []
  | p :: ps =>
    if p = "" then sliceLoop pf elem fieldName ps
    else
      match sliceElem pf elem p fieldName with
      | .error e => .error e
      | .ok v =>
        match sliceLoop pf elem fieldName ps with
        | .error e => .error e
        | .ok vs => .ok (v :: vs)

/-- `envy.setSlice` (envy.go:116): split on `,`, trim each part, bind the
coerced elements; the target field is only written on full success. -/
def setSlice (pf : String → Bool) (elem : FType) (value : String) (fieldName : String) :
    Except EnvyError Value :=
  match sliceLoop pf elem fieldName ((splitComma value).map trimSpace) with
  | .ok vs => .ok (.vSlice vs)
  | .error e => .error e

/-- `envy.setField` (envy.go:80): scalar coercion by field kind, slices
delegated to `setSlice`; on error the field keeps its previous value (the
`Set…` call is never reached). -/
def setField (pf : String → Bool) (typ : FType) (value : String) (fieldName : String) :
    Except EnvyError Value :=
  match typ with
  | .tString => .ok (.vStr value)
  | .tInt =>
    match parseInt64 value with
    | some n => .ok (.vInt n)
    | none => .error (.invalidInt fieldName)
  | .tUint =>
    match parseUint64 value with
    | some n => .ok (.vUint n)
    | none => .error (.invalidUint fieldName)
  | .tBool =>
    match parseBool value with
    | some b => .ok (.vBool b)
    | none => .error (.invalidBool fieldName)
  | .tFloat =>
    if pf value then .ok (.vFloat value) else .error (.invalidFloat fieldName)
  | .tSlice elem => setSlice pf elem value fieldName
  | .tOther => .error (.unsupportedType fieldName)

/-- The data of one leaf field (a flattened `Field.leaf`). -/
structure LeafD where
  name : String
  typ : FType
  envKey : String
  dflt : String
  req : String

/-- The required check and coercion on the resolved value `ev` of one leaf
field (envy.go:64-74): fail with `missingRequired` when `ev` is empty and
the field is required, coerce a non-empty `ev` via `setField`, keep the old
value `v` otherwise and on error; `ws` is the warnings printed earlier. -/
def leafBind (pf : String → Bool) (d : LeafD) (v : Value)
    (ws : List (String × String)) (ev : String) :
    Value × List (String × String) × Option EnvyError :=
  if ev = "" ∧ d.req = "true" then (v, ws, some (.missingRequired d.envKey))
  else if ev ≠ "" then
    match setField pf d.typ ev d.name with
    | .error e => (v, ws, some e)
    | .ok v' => (v', ws, none)
  else (v, ws, none)


/-- The per-leaf body of the loop in `envy.parse` (envy.go:44-74): read the
tags, resolve the value from the environment with default fallback
(envy.go:53-62), emit the required-with-default warning (envy.go:58-60,
returned as an `(envKey, default)` pair), then check/coerce via `leafBind`.
Returns the field's new value (its old value when skipped or on error), the
printed warnings, and the error if any. -/
def leafStep (pf : String → Bool) (env : String → String) (d : LeafD) (v : Value) :
    Value × List (String × String) × Option EnvyError :=
  if d.envKey = "" then (v, [], none)
  else
    leafBind pf d v
      (if env d.envKey = "" ∧ d.req = "true" ∧ d.dflt ≠ "" then [(d.envKey, d.dflt)] else [])
      (if env d.envKey = "" then d.dflt else env d.envKey)

/-- `envy.parse` (envy.go:23): walk the fields of a struct in declaration
order against the current values, recursing into nested structs with the
same environment (envy.go:37-42) and stopping at the first error, which
leaves the remaining fields untouched.  Returns the final field values
(partially mutated on error, as the Go code mutates the target in place),
the warnings printed, and the first error.  A `nested` descriptor paired
with a non-struct value cannot arise for a Go target and is skipped. -/
def parse (pf : String → Bool) (env : String → String) :
    List Field → List Value → List Value × List (String × String) × Option EnvyError
  | [], vs => (vs, [], none)
  | .nested _ nfs :: fs, .vStruct nvs :: vs =>
    match parse pf env nfs nvs with
    | (nvs', w, some e) => (.vStruct nvs' :: vs, w, some e)
    | (nvs', w, none) =>
      match parse pf env fs vs with
      | (vs', w2, e2) => (.vStruct nvs' :: vs', w ++ w2, e2)
  | .nested _ _ :: fs, v :: vs =>
    match parse pf env fs vs with
    | (vs', w, e) => (v :: vs', w, e)
  | .leaf n t k d r :: fs, v :: vs =>
    match leafStep pf env ⟨n, t, k, d, r⟩ v with
    | (v', w, some e) => (v' :: vs, w, some e)
    | (v', w, none) =>
      match parse pf env fs vs with
      | (vs', w2, e2) => (v' :: vs', w ++ w2, e2)
  | _ :: _, [] => ([], [], none)

/-- The leaf descriptors of a schema in depth-first declaration order. -/
def flattenF : List Field → List LeafD
  | [] => []
  | .leaf n t k d r :: fs => ⟨n, t, k, d, r⟩ :: flattenF fs
  | .nested _ nfs :: fs => flattenF nfs ++ flattenF fs

/-- The leaf values of a value tree in depth-first declaration order of the
schema. -/
def flattenV : List Field → List Value → List Value
  | [], _ => []
  | .leaf _ _ _ _ _ :: fs, v :: vs => v :: flattenV fs vs
  | .nested _ nfs :: fs, .vStruct nvs :: vs => flattenV nfs nvs ++ flattenV fs vs
  | .nested _ _ :: fs, _ :: vs => flattenV fs vs
  | _ :: _, [] => []

/-- The value list has the shape of the schema: one value per field, with
`vStruct` values (of conforming shape) under `nested` descriptors.  Holds
by construction for any Go target struct of the schema's type. -/
def conformsL : List Field → List Value → Bool
  | [], [] => true
  | .leaf _ _ _ _ _ :: fs, _ :: vs => conformsL fs vs
  | .nested _ nfs :: fs, .vStruct nvs :: vs => conformsL nfs nvs && conformsL fs vs
  | _, _ => false

/-- `parse` after flattening: the same left-to-right first-error traversal
over the depth-first leaf sequence. -/
def parseFlat (pf : String → Bool) (env : String → String) :
    List LeafD → List Value → List Value × List (String × String) × Option EnvyError
  | [], vs => (vs, [], none)
  | d :: ds, v :: vs =>
    match leafStep pf env d v with
    | (v', w, some e) => (v' :: vs, w, some e)
    | (v', w, none) =>
      match parseFlat pf env ds vs with
      | (vs', w2, e2) => (v' :: vs', w ++ w2, e2)
  | _ :: _, [] => ([], [], none)

/-- Specification-side element coercion of a list of split-and-trimmed parts:
coerce each part in order, first error wins (the spec sentence for
sequence-of-T, stated independently of the loop in `setSlice`). -/
def coerceParts (pf : String → Bool) (elem : FType) (fn : String) :
    List String → Except EnvyError (List Value)
  | [] => .ok []
  | p :: ps =>
    match sliceElem pf elem p fn, coerceParts pf elem fn ps with
    | .error e, _ => .error e
    | .ok _, .error e => .error e
    | .ok v, .ok vs => .ok (v :: vs)

end Envy

open Util Climd Envy

/-!
Concrete schemas, environments and values used by the witness and
counterexample theorems below.
-/

def cfgServe : AppConfig :=
  { Name := "myapp",
    Commands := [{ Name := "serve", Flags := [{ Name := "http" }, { Name := "grpc" }] }] }

def cmdPush : Command :=
  { Name := "push", Flags := [{ Name := "host", Required := true }] }

def cfgReq : AppConfig := { Commands := [cmdPush] }

def sbInit : SubCommand :=
  { Name := "init", Flags := [{ Name := "file", Short := "f", Required := true }] }

def cmdDb : Command := { Name := "db", SubCommands := [sbInit] }

def cfgDb : AppConfig := { Commands := [cmdDb] }

def cfgOneCmd : AppConfig := { Commands := [{ Name := "c" }] }

def envKA : String → String := fun k => if k = "KA" then "hello" else ""

def envPool : String → String := fun k => if k = "DB_POOL" then "x" else ""

def envC10 : String → String := fun k =>
  if k = "KA" then "7" else if k = "KB" then "x" else ""

def fsC10 : List Field :=
  [Field.leaf "A" .tInt "KA" "" "", Field.nested "N" [Field.leaf "B" .tInt "KB" "" ""],
   Field.leaf "C" .tString "KC" "" ""]

def vsC10 : List Value :=
  [Value.vInt 0, Value.vStruct [Value.vInt 1], Value.vStr "old"]

lemma parseArgsLoop_nil (flags : List Flag) (pos : List String) (m : FlagMap) :
    parseArgsLoop flags [] pos m = (pos, m) := rfl

lemma isPrefixOf_dash_of_dashdash {l : List Char} (h : ['-'].isPrefixOf l = false) :
    ['-', '-'].isPrefixOf l = false := by
  cases l with
  | nil => rfl
  | cons c t =>
    simp [List.isPrefixOf] at h ⊢
    intro hc; exact absurd hc h

lemma strStartsWith_dashdash_false {s : String} (h : strStartsWith s "-" = false) :
    strStartsWith s "--" = false := by
  have hd : ("--" : String).data = ['-', '-'] := rfl
  have hs : ("-" : String).data = ['-'] := rfl
  unfold strStartsWith at h ⊢
  rw [hd]
  rw [hs] at h
  exact isPrefixOf_dash_of_dashdash h

lemma findSome?_eq_some_of_mem {α β : Type} (p : α → Option β) (l : List α) (a : α) (b : β)
    (ha : a ∈ l) (hp : p a = some b) : ∃ c, l.findSome? p = some c := by
  induction l with
  | nil => cases ha
  | cons x xs ih =>
    rw [List.findSome?_cons]
    cases hx : p x with
    | some y => exact ⟨y, rfl⟩
    | none =>
      rcases List.mem_cons.mp ha with h | h
      · subst h; rw [hp] at hx; cases hx
      · simpa using ih h

lemma checkRequired_eq_some_of (flags : List Flag) (m : FlagMap) (f : Flag)
    (hf : f ∈ flags) (hreq : f.Required = true) (h1 : m.lookup f.Name = none)
    (h2 : f.Short = "" ∨ m.lookup f.Short = none) :
    ∃ c, checkRequired flags m = some c := by
  apply findSome?_eq_some_of_mem _ _ f (f.Name, f.Short) hf
  rcases h2 with h2 | h2
  · simp [hreq, h1, h2]
  · by_cases hs : f.Short = ""
    · simp [hreq, h1, hs]
    · simp [hreq, h1, hs, h2]

lemma checkRequired_none_of_not_required (flags : List Flag) (m : FlagMap)
    (h : ∀ f ∈ flags, f.Required = false) : checkRequired flags m = none := by
  induction flags with
  | nil => rfl
  | cons g gs ih =>
    have hg := h g (by simp)
    unfold checkRequired at ih ⊢
    rw [List.findSome?_cons]
    simp only [hg]
    simpa using ih fun f hf => h f (List.mem_cons_of_mem _ hf)

lemma runWith_missing (cmdName : String) (sub : Option String) (fl : List Flag)
    (toks : List String) (h : ∃ c, checkRequired fl (parseArgs toks fl).2 = some c) :
    (∃ n s, runWith cmdName sub fl toks = .missingFlagErr n s) ∧
      ∀ c2 s2 a2 m2, runWith cmdName sub fl toks ≠ .invoked c2 s2 a2 m2 := by
  obtain ⟨⟨n, s⟩, hc⟩ := h
  refine ⟨⟨n, s, ?_⟩, ?_⟩
  · simp [runWith, hc]
  · intro c2 s2 a2 m2; simp [runWith, hc]

lemma Run_cons (config : AppConfig) (osArgs rest : List String) (cn : String)
    (cmd : Command)
    (h1 : cn ≠ "--help") (h2 : cn ≠ "-h") (h3 : cn ≠ "--version") (h4 : cn ≠ "-v")
    (h5 : config.Commands.isEmpty = false)
    (h6 : config.Commands.find? (fun c => c.Name == cn) = some cmd) :
    Run config osArgs (cn :: rest) =
      match rest with
      | [] => runWith cmd.Name none cmd.Flags []
      | sub :: rest2 =>
        if cmd.SubCommands.isEmpty then runWith cmd.Name none cmd.Flags (sub :: rest2)
        else
          match cmd.SubCommands.find? (fun s => s.Name == sub) with
          | some sc => runWith cmd.Name (some sc.Name) sc.Flags rest2
          | none => .unknownSubErr cmd.Name sub := by
  simp [Run, h1, h2, h3, h4, h5, h6]








set_option maxHeartbeats 1000000 in
set_option maxRecDepth 8000 in
/-- C1: token classification is left to right: a token whose stripped name
matches a declared long or short name of the active flag schema is recorded
in the flag map; when the next token exists and does not begin with `-` it
is consumed as the flag's value (two tokens consumed), otherwise the flag is
recorded with empty-string value (one token consumed).  In particular,
dispatch on `["serve", "--http", "all"]` with a `serve` command declaring a
`http` flag invokes the handler with flag map `{"http": "all"}` and no
positional arguments. -/
theorem C1_token_classification :
    (∀ (flags : List Flag) (arg name next : String) (rest pos : List String) (m : FlagMap),
        strStartsWith arg "--" = true → strDrop arg 2 = name →
        isKnownFlag flags name = true → strStartsWith next "-" = false →
        parseArgsLoop flags (arg :: next :: rest) pos m =
          parseArgsLoop flags rest pos (mapInsert m name next)) ∧
    (∀ (flags : List Flag) (arg name next : String) (rest pos : List String) (m : FlagMap),
        strStartsWith arg "--" = true → strDrop arg 2 = name →
        isKnownFlag flags name = true → strStartsWith next "-" = true →
        parseArgsLoop flags (arg :: next :: rest) pos m =
          parseArgsLoop flags (next :: rest) pos (mapInsert m name "")) ∧
    (∀ (flags : List Flag) (arg name : String) (pos : List String) (m : FlagMap),
        strStartsWith arg "--" = true → strDrop arg 2 = name →
        isKnownFlag flags name = true →
        parseArgsLoop flags [arg] pos m = (pos, mapInsert m name "")) ∧
    (∀ (flags : List Flag) (arg name next : String) (rest pos : List String) (m : FlagMap),
        strStartsWith arg "--" = false → strStartsWith arg "-" = true → strLen arg > 1 →
        strDrop arg 1 = name →
        isKnownFlag flags name = true → strStartsWith next "-" = false →
        parseArgsLoop flags (arg :: next :: rest) pos m =
          parseArgsLoop flags rest pos (mapInsert m name next)) ∧
    (∀ (flags : List Flag) (arg name next : String) (rest pos : List String) (m : FlagMap),
        strStartsWith arg "--" = false → strStartsWith arg "-" = true → strLen arg > 1 →
        strDrop arg 1 = name →
        isKnownFlag flags name = true → strStartsWith next "-" = true →
        parseArgsLoop flags (arg :: next :: rest) pos m =
          parseArgsLoop flags (next :: rest) pos (mapInsert m name "")) ∧
    (∀ (flags : List Flag) (arg name : String) (pos : List String) (m : FlagMap),
        strStartsWith arg "--" = false → strStartsWith arg "-" = true → strLen arg > 1 →
        strDrop arg 1 = name →
        isKnownFlag flags name = true →
        parseArgsLoop flags [arg] pos m = (pos, mapInsert m name "")) ∧
    (∀ osArgs : List String,
        Run cfgServe osArgs ["serve", "--http", "all"] =
          .invoked "serve" none [] [("http", "all")]) := by
  refine ⟨?_, ?_, ?_, ?_, ?_, ?_, ?_⟩
  · intro flags arg name next rest pos m h1 h2 h3 h4
    have h5 : strStartsWith next "--" = false := strStartsWith_dashdash_false h4
    conv_lhs => rw [parseArgsLoop.eq_def]
    simp [h1, h2, h3, h4, h5]
  · intro flags arg name next rest pos m h1 h2 h3 h4
    conv_lhs => rw [parseArgsLoop.eq_def]
    simp [h1, h2, h3, h4]
  · intro flags arg name pos m h1 h2 h3
    conv_lhs => rw [parseArgsLoop.eq_def]
    simp [h1, h2, h3, parseArgsLoop_nil]
  · intro flags arg name next rest pos m h0 h1 hlen h2 h3 h4
    have h5 : strStartsWith next "--" = false := strStartsWith_dashdash_false h4
    conv_lhs => rw [parseArgsLoop.eq_def]
    simp [h0, h1, hlen, h2, h3, h4, h5]
  · intro flags arg name next rest pos m h0 h1 hlen h2 h3 h4
    conv_lhs => rw [parseArgsLoop.eq_def]
    simp [h0, h1, hlen, h2, h3, h4]
  · intro flags arg name pos m h0 h1 hlen h2 h3
    conv_lhs => rw [parseArgsLoop.eq_def]
    simp [h0, h1, hlen, h2, h3, parseArgsLoop_nil]
  · intro osArgs; rfl

/-- Witness for C1: each conjunct of `C1_token_classification` applied at a
concrete flag schema and token list. -/
theorem C1_witness :
    (parseArgsLoop [{ Name := "http" }] ["--http", "all"] [] [] =
      parseArgsLoop [{ Name := "http" }] [] [] (mapInsert [] "http" "all")) ∧
    (parseArgsLoop [{ Name := "http" }] ["--http", "-x"] [] [] =
      parseArgsLoop [{ Name := "http" }] ["-x"] [] (mapInsert [] "http" "")) ∧
    (parseArgsLoop [{ Name := "http" }] ["--http"] [] [] = ([], mapInsert [] "http" "")) ∧
    (parseArgsLoop [{ Name := "grpc", Short := "g" }] ["-g", "mod1"] [] [] =
      parseArgsLoop [{ Name := "grpc", Short := "g" }] [] [] (mapInsert [] "g" "mod1")) ∧
    (parseArgsLoop [{ Name := "grpc", Short := "g" }] ["-g", "-x"] [] [] =
      parseArgsLoop [{ Name := "grpc", Short := "g" }] ["-x"] [] (mapInsert [] "g" "")) ∧
    (parseArgsLoop [{ Name := "grpc", Short := "g" }] ["-g"] [] [] =
      ([], mapInsert [] "g" "")) ∧
    (Run cfgServe [] ["serve", "--http", "all"] = .invoked "serve" none [] [("http", "all")]) :=
  ⟨C1_token_classification.1 _ _ _ _ _ _ _ rfl rfl rfl rfl,
   C1_token_classification.2.1 _ _ _ _ _ _ _ rfl rfl rfl rfl,
   C1_token_classification.2.2.1 _ _ _ _ _ rfl rfl rfl,
   C1_token_classification.2.2.2.1 _ _ _ _ _ _ _ rfl rfl (by decide) rfl rfl rfl,
   C1_token_classification.2.2.2.2.1 _ _ _ _ _ _ _ rfl rfl (by decide) rfl rfl rfl,
   C1_token_classification.2.2.2.2.2.1 _ _ _ _ _ rfl rfl (by decide) rfl rfl,
   C1_token_classification.2.2.2.2.2.2 []⟩

/-- C5: for every declared flag marked required (on the command path and on
the subcommand path alike), when after token classification the flag map
contains neither the flag's long name nor (when a short name is declared)
its short name, `Run` fails with a missing-required-flag error and the
handler is never invoked. -/
theorem C5_required_flag_validation :
    (∀ (config : AppConfig) (osArgs rest : List String) (cn : String) (cmd : Command)
        (f : Flag),
        cn ≠ "--help" → cn ≠ "-h" → cn ≠ "--version" → cn ≠ "-v" →
        config.Commands.isEmpty = false →
        config.Commands.find? (fun c => c.Name == cn) = some cmd →
        cmd.SubCommands = [] →
        f ∈ cmd.Flags → f.Required = true →
        (parseArgs rest cmd.Flags).2.lookup f.Name = none →
        (f.Short = "" ∨ (parseArgs rest cmd.Flags).2.lookup f.Short = none) →
        (∃ n s, Run config osArgs (cn :: rest) = .missingFlagErr n s) ∧
          ∀ c2 s2 a2 m2, Run config osArgs (cn :: rest) ≠ .invoked c2 s2 a2 m2) ∧
    (∀ (config : AppConfig) (osArgs rest2 : List String) (cn sn : String)
        (cmd : Command) (sc : SubCommand) (f : Flag),
        cn ≠ "--help" → cn ≠ "-h" → cn ≠ "--version" → cn ≠ "-v" →
        config.Commands.isEmpty = false →
        config.Commands.find? (fun c => c.Name == cn) = some cmd →
        cmd.SubCommands.isEmpty = false →
        cmd.SubCommands.find? (fun s => s.Name == sn) = some sc →
        f ∈ sc.Flags → f.Required = true →
        (parseArgs rest2 sc.Flags).2.lookup f.Name = none →
        (f.Short = "" ∨ (parseArgs rest2 sc.Flags).2.lookup f.Short = none) →
        (∃ n s, Run config osArgs (cn :: sn :: rest2) = .missingFlagErr n s) ∧
          ∀ c2 s2 a2 m2, Run config osArgs (cn :: sn :: rest2) ≠ .invoked c2 s2 a2 m2) := by
  constructor
  · intro config osArgs rest cn cmd f h1 h2 h3 h4 h5 h6 hsub hf hreq hl1 hl2
    have hmiss := runWith_missing cmd.Name none cmd.Flags rest
      (checkRequired_eq_some_of _ _ f hf hreq hl1 hl2)
    rw [Run_cons config osArgs rest cn cmd h1 h2 h3 h4 h5 h6]
    cases rest with
    | nil => exact hmiss
    | cons sub rest2 => simpa [hsub] using hmiss
  · intro config osArgs rest2 cn sn cmd sc f h1 h2 h3 h4 h5 h6 hsub hsc hf hreq hl1 hl2
    have hmiss := runWith_missing cmd.Name (some sc.Name) sc.Flags rest2
      (checkRequired_eq_some_of _ _ f hf hreq hl1 hl2)
    rw [Run_cons config osArgs (sn :: rest2) cn cmd h1 h2 h3 h4 h5 h6]
    simpa [hsub, hsc] using hmiss

/-- Witness for C5: both paths of `C5_required_flag_validation` applied at
concrete configurations (`push` with a required `host` flag; `db init` with
a required `file`/`-f` flag). -/
theorem C5_witness :
    ((∃ n s, Run cfgReq [] ["push"] = .missingFlagErr n s) ∧
      ∀ c2 s2 a2 m2, Run cfgReq [] ["push"] ≠ .invoked c2 s2 a2 m2) ∧
    ((∃ n s, Run cfgDb [] ["db", "init"] = .missingFlagErr n s) ∧
      ∀ c2 s2 a2 m2, Run cfgDb [] ["db", "init"] ≠ .invoked c2 s2 a2 m2) :=
  ⟨C5_required_flag_validation.1 cfgReq [] [] "push" cmdPush
      { Name := "host", Required := true }
      (by decide) (by decide) (by decide) (by decide) (by decide) (by decide) rfl
      (by decide) rfl rfl (Or.inl rfl),
   C5_required_flag_validation.2 cfgDb [] [] "db" "init" cmdDb sbInit
      { Name := "file", Short := "f", Required := true }
      (by decide) (by decide) (by decide) (by decide) (by decide) (by decide) (by decide)
      (by decide) (by decide) rfl rfl (Or.inr rfl)⟩

/-- Counterexample to C6 as stated: `Run` with an empty argument vector does
not print help and return success unconditionally — climd.go:50-52
substitutes `os.Args[1:]` for an empty `args`, so with process arguments
`["c"]` and a schema declaring command `c`, the handler of `c` is invoked
instead. -/
theorem C6_counterexample :
    Run cfgOneCmd ["c"] [] = .invoked "c" none [] [] ∧
      Run cfgOneCmd ["c"] [] ≠ .helpOk := by decide

/-- C6 amended: `Run` with an empty argument vector behaves as `Run` on the
process arguments `os.Args[1:]`; when both are empty it prints the full help
and returns success.  With a schema declaring no commands, `Run` returns
success and invokes no handler: it prints the version line when the first
token is a version token, and the full help text otherwise. -/
theorem C6_empty_argv_amended :
    (∀ (config : AppConfig) (osArgs : List String),
        Run config osArgs [] = Run config osArgs osArgs) ∧
    (∀ config : AppConfig, Run config [] [] = .helpOk) ∧
    (∀ (config : AppConfig) (osArgs rest : List String) (a : String),
        config.Commands = [] → a ≠ "--version" → a ≠ "-v" →
        Run config osArgs (a :: rest) = .helpOk) ∧
    (∀ (config : AppConfig) (osArgs rest : List String) (a : String),
        config.Commands = [] → (a = "--version" ∨ a = "-v") →
        Run config osArgs (a :: rest) = .versionOk) := by
  refine ⟨?_, ?_, ?_, ?_⟩
  · intro config osArgs
    simp [Run]
  · intro config; rfl
  · intro config osArgs rest a hcmds h1 h2
    by_cases hh : a = "--help" ∨ a = "-h"
    · simp [Run, hh]
    · simp [Run, hh, h1, h2, hcmds]
  · intro config osArgs rest a hcmds h
    rcases h with h | h <;> subst h <;> simp [Run]

/-- Witness for C6: the hypothesis-bearing conjuncts of
`C6_empty_argv_amended` applied at a no-command schema. -/
theorem C6_amended_witness :
    Run { Commands := [] } [] ["x"] = .helpOk ∧
    Run { Commands := [] } [] ["--version"] = .versionOk :=
  ⟨C6_empty_argv_amended.2.2.1 { Commands := [] } [] [] "x" rfl (by decide) (by decide),
   C6_empty_argv_amended.2.2.2 { Commands := [] } [] [] "--version" rfl (Or.inl rfl)⟩

/-- C8: for every argument vector whose first token is not a recognized help
or version token and matches no registered command of a schema with at least
one command, `Run` prints the unknown-command diagnostic plus help (the
`unknownCommandErr` outcome) and fails with an unknown-command error
carrying that name. -/
theorem C8_unknown_command :
    ∀ (config : AppConfig) (osArgs rest : List String) (name : String),
      name ≠ "--help" → name ≠ "-h" → name ≠ "--version" → name ≠ "-v" →
      config.Commands.isEmpty = false →
      config.Commands.find? (fun c => c.Name == name) = none →
      Run config osArgs (name :: rest) = .unknownCommandErr name := by
  intro config osArgs rest name h1 h2 h3 h4 h5 h6
  simp [Run, h1, h2, h3, h4, h5, h6]

/-- Witness for C8: `C8_unknown_command` at the `serve` schema and argv
`["frob"]`, failing with unknown command `frob`. -/
theorem C8_witness : Run cfgServe [] ["frob"] = .unknownCommandErr "frob" :=
  C8_unknown_command cfgServe [] [] "frob" (by decide) (by decide) (by decide) (by decide)
    (by decide) (by decide)

/-- C9: a matched command that declares subcommands but is invoked with no
second token falls through to its own flag schema and handler with an empty
remaining token sequence (not an unknown-subcommand error); when none of its
own flags is required, its handler is invoked with no flags and no
positional arguments. -/
theorem C9_subcommand_fallthrough :
    ∀ (config : AppConfig) (osArgs : List String) (cn : String) (cmd : Command),
      cn ≠ "--help" → cn ≠ "-h" → cn ≠ "--version" → cn ≠ "-v" →
      config.Commands.isEmpty = false →
      config.Commands.find? (fun c => c.Name == cn) = some cmd →
      cmd.SubCommands ≠ [] →
      Run config osArgs [cn] = runWith cmd.Name none cmd.Flags [] ∧
        ((∀ f ∈ cmd.Flags, f.Required = false) →
          Run config osArgs [cn] = .invoked cmd.Name none [] []) := by
  intro config osArgs cn cmd h1 h2 h3 h4 h5 h6 _
  have hrun : Run config osArgs [cn] = runWith cmd.Name none cmd.Flags [] := by
    rw [Run_cons config osArgs [] cn cmd h1 h2 h3 h4 h5 h6]
  refine ⟨hrun, fun hnr => ?_⟩
  rw [hrun]
  have hcr : checkRequired cmd.Flags [] = none :=
    checkRequired_none_of_not_required _ _ hnr
  simp [runWith, parseArgs, parseArgsLoop_nil, hcr]

/-- Witness for C9: `C9_subcommand_fallthrough` at the `db` command (which
declares an `init` subcommand) invoked as plain `["db"]`. -/
theorem C9_witness : Run cfgDb [] ["db"] = .invoked "db" none [] [] :=
  (C9_subcommand_fallthrough cfgDb [] "db" cmdDb
      (by decide) (by decide) (by decide) (by decide) (by decide) (by decide)
      (by decide)).2 (by decide)

lemma parse_append_ok (pf : String → Bool) (env : String → String) :
    ∀ (fs1 : List Field) (vs1 : List Value) (fs2 : List Field) (vs2 : List Value),
      vs1.length = fs1.length → (parse pf env fs1 vs1).2.2 = none →
      parse pf env (fs1 ++ fs2) (vs1 ++ vs2) =
        ((parse pf env fs1 vs1).1 ++ (parse pf env fs2 vs2).1,
          (parse pf env fs1 vs1).2.1 ++ (parse pf env fs2 vs2).2.1,
          (parse pf env fs2 vs2).2.2) := by
  intro fs1
  induction fs1 with
  | nil =>
    intro vs1 fs2 vs2 hlen _
    have hv : vs1 = [] := List.length_eq_zero.mp (by simpa using hlen)
    subst hv
    simp [parse]
  | cons f fs ih =>
    intro vs1 fs2 vs2 hlen hok
    cases vs1 with
    | nil => simp at hlen
    | cons v vs =>
      have hlen' : vs.length = fs.length := by simpa using hlen
      cases f with
      | leaf n t k d r =>
        rcases hstep : leafStep pf env ⟨n, t, k, d, r⟩ v with ⟨v', w, e⟩
        cases e with
        | some err => simp [parse, hstep] at hok
        | none =>
          rcases hrest : parse pf env fs vs with ⟨vs', w2, e2⟩
          have he2 : e2 = none := by simpa [parse, hstep, hrest] using hok
          subst he2
          rcases hrest2 : parse pf env fs2 vs2 with ⟨vs2', w2', e2'⟩
          have hih := ih vs fs2 vs2 hlen' (by simp [hrest])
          rw [hrest, hrest2] at hih
          simp [parse, hstep, hrest, hrest2, hih]
      | nested nm nfs =>
        by_cases hv : ∃ nvs, v = Value.vStruct nvs
        · obtain ⟨nvs, rfl⟩ := hv
          rcases hin : parse pf env nfs nvs with ⟨nvs', w, e⟩
          cases e with
          | some err => simp [parse, hin] at hok
          | none =>
            rcases hrest : parse pf env fs vs with ⟨vs', w2, e2⟩
            have he2 : e2 = none := by simpa [parse, hin, hrest] using hok
            subst he2
            rcases hrest2 : parse pf env fs2 vs2 with ⟨vs2', w2', e2'⟩
            have hih := ih vs fs2 vs2 hlen' (by simp [hrest])
            rw [hrest, hrest2] at hih
            simp [parse, hin, hrest, hrest2, hih]
        · have hv' : ∀ nvs, v = Value.vStruct nvs → False := fun nvs h => hv ⟨nvs, h⟩
          rcases hrest : parse pf env fs vs with ⟨vs', w2, e2⟩
          have he2 : e2 = none := by
            rw [parse.eq_3 pf env nm nfs fs v vs hv', hrest] at hok
            simpa using hok
          subst he2
          rcases hrest2 : parse pf env fs2 vs2 with ⟨vs2', w2', e2'⟩
          have hih := ih vs fs2 vs2 hlen' (by simp [hrest])
          rw [hrest, hrest2] at hih
          rw [show (Field.nested nm nfs :: fs) ++ fs2 = Field.nested nm nfs :: (fs ++ fs2)
              from rfl,
            show (v :: vs) ++ vs2 = v :: (vs ++ vs2) from rfl,
            parse.eq_3 pf env nm nfs (fs ++ fs2) v (vs ++ vs2) hv', hih,
            parse.eq_3 pf env nm nfs fs v vs hv', hrest]
          simp


/-- C2: a field marked required whose source key is non-empty but resolves
to the empty string and whose default literal is empty makes `parse` (the
binding pass of `Bind`) fail with `missingRequired` naming the key, provided
the fields declared before it bind without error (the first error in
declaration order is the one reported). -/
theorem C2_missing_required :
    ∀ (pf : String → Bool) (env : String → String) (fs1 fs2 : List Field)
      (vs1 vs2 : List Value) (v : Value) (name : String) (typ : FType) (key : String),
      key ≠ "" → env key = "" →
      vs1.length = fs1.length → (parse pf env fs1 vs1).2.2 = none →
      (parse pf env (fs1 ++ Field.leaf name typ key "" "true" :: fs2)
          (vs1 ++ v :: vs2)).2.2 = some (.missingRequired key) := by
  intro pf env fs1 fs2 vs1 vs2 v name typ key hk henv hlen hok
  rw [parse_append_ok pf env fs1 vs1 (Field.leaf name typ key "" "true" :: fs2)
    (v :: vs2) hlen hok]
  have hstep : leafStep pf env ⟨name, typ, key, "", "true"⟩ v =
      (v, [], some (.missingRequired key)) := by
    simp [leafStep, leafBind, hk, henv]
  simp [parse, hstep]

/-- Witness for C2: `C2_missing_required` on a two-field schema whose second
field is required with key `MISSING`, unset and without default. -/
theorem C2_witness :
    (parse (fun _ => false) envKA
        ([Field.leaf "A" .tString "KA" "" ""] ++ Field.leaf "M" .tInt "MISSING" "" "true" :: [])
        ([Value.vStr "x"] ++ Value.vInt 0 :: [])).2.2 =
      some (.missingRequired "MISSING") :=
  C2_missing_required _ envKA [Field.leaf "A" .tString "KA" "" ""] [] [Value.vStr "x"] []
    (Value.vInt 0) "M" .tInt "MISSING" (by decide) (by decide) rfl
    (by simp [parse, leafStep, leafBind, envKA, setField])


/-- C7 amended: `parse` recurses into a nested record with the same source
lookup and propagates the first nested error unchanged — it is not annotated
with the outer field path (envy.go:38-40 is a bare `return err`). -/
theorem C7_nested_error_propagation :
    ∀ (pf : String → Bool) (env : String → String) (nm : String)
      (nfs fs : List Field) (nvs vs : List Value) (e : EnvyError),
      (parse pf env nfs nvs).2.2 = some e →
      (parse pf env (Field.nested nm nfs :: fs) (Value.vStruct nvs :: vs)).2.2 = some e := by
  intro pf env nm nfs fs nvs vs e h
  rcases hin : parse pf env nfs nvs with ⟨nvs', w, e'⟩
  rw [hin] at h
  simp only at h
  subst h
  simp [parse, hin]

/-- Counterexample to C7 as stated: the error propagated out of the nested
`Database` record is literally identical to the error of binding the inner
field alone — it names only the inner field `Pool` and carries no outer
field path annotation. -/
theorem C7_counterexample :
    (parse (fun _ => false) envPool
        [Field.nested "Database" [Field.leaf "Pool" .tInt "DB_POOL" "" ""]]
        [Value.vStruct [Value.vInt 0]] =
      ([Value.vStruct [Value.vInt 0]], [], some (.invalidInt "Pool"))) ∧
    (parse (fun _ => false) envPool [Field.leaf "Pool" .tInt "DB_POOL" "" ""]
        [Value.vInt 0] =
      ([Value.vInt 0], [], some (.invalidInt "Pool"))) := by
  constructor <;>
    simp [parse, leafStep, leafBind, envPool, setField, parseInt64, parseDigits, parseDigits.go]

/-- Witness for C7: `C7_nested_error_propagation` applied at the concrete
nested `Database`/`Pool` schema. -/
theorem C7_witness :
    (parse (fun _ => false) envPool
        [Field.nested "Database" [Field.leaf "Pool" .tInt "DB_POOL" "" ""]]
        [Value.vStruct [Value.vInt 0]]).2.2 = some (.invalidInt "Pool") :=
  C7_nested_error_propagation _ envPool "Database" _ [] _ [] _
    (by simp [parse, leafStep, leafBind, envPool, setField, parseInt64, parseDigits, parseDigits.go])

lemma sliceElem_err_shape (pf : String → Bool) (elem : FType) (part fn : String)
    (e : EnvyError) (h : sliceElem pf elem part fn = .error e) :
    e = .invalidIntInSlice fn ∨ e = .invalidFloatInSlice fn ∨
      e = .unsupportedSliceElem fn := by
  cases elem with
  | tString => simp [sliceElem] at h
  | tInt =>
    rcases hpi : parseInt64 part with _ | n
    · simp [sliceElem, hpi] at h; subst h; simp
    · simp [sliceElem, hpi] at h
  | tFloat =>
    by_cases hp : pf part
    · simp [sliceElem, hp] at h
    · simp [sliceElem, hp] at h; subst h; simp
  | tUint => simp [sliceElem] at h; subst h; simp
  | tBool => simp [sliceElem] at h; subst h; simp
  | tSlice elem2 => simp [sliceElem] at h; subst h; simp
  | tOther => simp [sliceElem] at h; subst h; simp

lemma sliceLoop_err_shape (pf : String → Bool) (elem : FType) (fn : String) :
    ∀ (ps : List String) (e : EnvyError), sliceLoop pf elem fn ps = .error e →
      e = .invalidIntInSlice fn ∨ e = .invalidFloatInSlice fn ∨
        e = .unsupportedSliceElem fn := by
  intro ps
  induction ps with
  | nil => intro e he; simp [sliceLoop] at he
  | cons p ps ih =>
    intro e he
    by_cases hp : p = ""
    · exact ih e (by simpa [sliceLoop, hp] using he)
    · rcases hse : sliceElem pf elem p fn with e' | v
      · have hsh := sliceElem_err_shape pf elem p fn e' hse
        have he' : e' = e := by simpa [sliceLoop, hp, hse] using he
        subst he'; exact hsh
      · rcases hsl : sliceLoop pf elem fn ps with e2 | vs2
        · have he2 : e2 = e := by simpa [sliceLoop, hp, hse, hsl] using he
          subst he2; exact ih e2 hsl
        · simp [sliceLoop, hp, hse, hsl] at he

lemma setField_not_missingRequired (pf : String → Bool) (typ : FType) (s fn : String)
    (e : EnvyError) (h : setField pf typ s fn = .error e) (key : String) :
    e ≠ .missingRequired key := by
  cases typ with
  | tString => simp [setField] at h
  | tInt =>
    rcases hpi : parseInt64 s with _ | n
    · simp [setField, hpi] at h; subst h; simp
    · simp [setField, hpi] at h
  | tUint =>
    rcases hpi : parseUint64 s with _ | n
    · simp [setField, hpi] at h; subst h; simp
    · simp [setField, hpi] at h
  | tBool =>
    rcases hpi : parseBool s with _ | b
    · simp [setField, hpi] at h; subst h; simp
    · simp [setField, hpi] at h
  | tFloat =>
    by_cases hp : pf s
    · simp [setField, hp] at h
    · simp [setField, hp] at h; subst h; simp
  | tSlice elem =>
    rcases hsl : sliceLoop pf elem fn ((splitComma s).map trimSpace) with e2 | vs
    · have he : e2 = e := by simpa [setField, setSlice, hsl] using h
      subst he
      rcases sliceLoop_err_shape pf elem fn _ e2 hsl with h1 | h1 | h1 <;> subst h1 <;> simp
    · simp [setField, setSlice, hsl] at h
  | tOther => simp [setField] at h; subst h; simp

/-- Counterexample to C3 as stated: an int field that is required with the
non-coercible default `"abc"` and no source entry prints the warning but is
not bound to the default — binding fails with the coercion error, so "binds
the field to the default value" does not hold for every such field. -/
theorem C3_counterexample :
    parse (fun _ => false) (fun _ => "") [Field.leaf "F" .tInt "K" "abc" "true"]
        [Value.vInt 0] =
      ([Value.vInt 0], [("K", "abc")], some (.invalidInt "F")) := by
  simp [parse, leafStep, leafBind, setField, parseInt64, parseDigits, parseDigits.go]

/-- C3 amended: for a field marked required carrying a non-empty default,
when the source lookup yields the empty string, the warning
`(envKey, default)` is printed and the resolution never fails with
`missingRequired` (the default satisfies the requirement); the default is
then coerced like any other value, so the field is bound to the coerced
default exactly when `setField` accepts it, and `parse` continues with the
remaining fields. -/
theorem C3_required_default_amended :
    ∀ (pf : String → Bool) (env : String → String) (n : String) (t : FType)
      (k d : String) (v : Value),
      k ≠ "" → env k = "" → d ≠ "" →
      (leafStep pf env ⟨n, t, k, d, "true"⟩ v =
        match setField pf t d n with
        | .ok v' => (v', [(k, d)], none)
        | .error e => (v, [(k, d)], some e)) ∧
      (∀ key, (leafStep pf env ⟨n, t, k, d, "true"⟩ v).2.2 ≠ some (.missingRequired key)) ∧
      (∀ (fs : List Field) (vs : List Value) (v' : Value),
        setField pf t d n = .ok v' →
        parse pf env (Field.leaf n t k d "true" :: fs) (v :: vs) =
          (v' :: (parse pf env fs vs).1, (k, d) :: (parse pf env fs vs).2.1,
            (parse pf env fs vs).2.2)) := by
  intro pf env n t k d v hk henv hd
  have hstep : leafStep pf env ⟨n, t, k, d, "true"⟩ v =
      match setField pf t d n with
      | .ok v' => (v', [(k, d)], none)
      | .error e => (v, [(k, d)], some e) := by
    rcases hsf : setField pf t d n with e | v'
    · simp [leafStep, leafBind, hk, henv, hd, hsf]
    · simp [leafStep, leafBind, hk, henv, hd, hsf]
  refine ⟨hstep, ?_, ?_⟩
  · intro key
    rw [hstep]
    rcases hsf : setField pf t d n with e | v'
    · simpa using setField_not_missingRequired pf t d n e hsf key
    · simp
  · intro fs vs v' hsf
    have hstep2 : leafStep pf env ⟨n, t, k, d, "true"⟩ v = (v', [(k, d)], none) := by
      rw [hstep, hsf]
    rcases hrest : parse pf env fs vs with ⟨vs', w2, e2⟩
    simp [parse, hstep2, hrest]

/-- Witness for C3: `C3_required_default_amended` at a required int field
with default `"8080"` and empty environment — the warning is emitted and the
field is bound to `8080`. -/
theorem C3_witness :
    parse (fun _ => false) (fun _ => "") [Field.leaf "P" .tInt "KP" "8080" "true"]
        [Value.vInt 0] =
      ([Value.vInt 8080], [("KP", "8080")], none) := by
  have h := (C3_required_default_amended (fun _ => false) (fun _ => "") "P" .tInt "KP"
      "8080" (Value.vInt 0) (by decide) rfl (by decide)).2.2 [] [] (Value.vInt 8080) rfl
  simpa [parse] using h


lemma sliceLoop_eq_coerceParts (pf : String → Bool) (elem : FType) (fn : String) :
    ∀ ps : List String,
      sliceLoop pf elem fn ps = coerceParts pf elem fn (ps.filter fun p => p != "") := by
  intro ps
  induction ps with
  | nil => rfl
  | cons p ps ih =>
    by_cases hp : p = ""
    · subst hp
      simp [sliceLoop, ih]
    · rcases hse : sliceElem pf elem p fn with e | v
      · simp [sliceLoop, hp, hse, List.filter_cons, coerceParts]
      · rcases hsl : sliceLoop pf elem fn ps with e2 | vs2 <;>
          simp [sliceLoop, hp, hse, hsl, List.filter_cons, coerceParts, ← ih]

/-- C4: `setSlice` splits the resolved string on `,`, trims surrounding
whitespace from every part, drops empty parts, coerces each remaining part
to the element kind and preserves split order (the `coerceParts` refinement
of the loop); `"a, b ,c"` as a string sequence yields `["a", "b", "c"]`,
`"1,2,4"` as an int sequence yields `[1, 2, 4]`, and `"1,x,4"` fails with
the int-in-slice type error. -/
theorem C4_slice_semantics :
    (∀ (pf : String → Bool) (elem : FType) (value fieldName : String),
        setSlice pf elem value fieldName =
          Except.map Value.vSlice
            (coerceParts pf elem fieldName
              (((splitComma value).map trimSpace).filter fun p => p != ""))) ∧
    (∀ pf : String → Bool, setSlice pf .tString "a, b ,c" "F" =
        .ok (.vSlice [.vStr "a", .vStr "b", .vStr "c"])) ∧
    (∀ pf : String → Bool, setSlice pf .tInt "1,2,4" "F" =
        .ok (.vSlice [.vInt 1, .vInt 2, .vInt 4])) ∧
    (∀ pf : String → Bool, setSlice pf .tInt "1,x,4" "F" =
        .error (.invalidIntInSlice "F")) := by
  refine ⟨?_, fun pf => rfl, fun pf => rfl, fun pf => rfl⟩
  intro pf elem value fieldName
  rw [← sliceLoop_eq_coerceParts pf elem fieldName ((splitComma value).map trimSpace)]
  rcases hsl : sliceLoop pf elem fieldName ((splitComma value).map trimSpace) with e | vs <;>
    simp [setSlice, hsl, Except.map]

lemma leafBind_err_val (pf : String → Bool) (d : LeafD) (v : Value)
    (ws : List (String × String)) (ev : String) (e : EnvyError)
    (h : (leafBind pf d v ws ev).2.2 = some e) : (leafBind pf d v ws ev).1 = v := by
  unfold leafBind at h ⊢
  split_ifs at h ⊢ with h1 h2
  · rfl
  · rcases hsf : setField pf d.typ ev d.name with e' | v'
    · simp [hsf]
    · simp [hsf] at h

lemma leafStep_err_val (pf : String → Bool) (env : String → String) (d : LeafD)
    (v : Value) (e : EnvyError) (h : (leafStep pf env d v).2.2 = some e) :
    (leafStep pf env d v).1 = v := by
  unfold leafStep at h ⊢
  by_cases h1 : d.envKey = ""
  · rw [if_pos h1] at h; simp at h
  · rw [if_neg h1] at h ⊢
    exact leafBind_err_val pf d v _ _ e h

lemma parseFlat_append (pf : String → Bool) (env : String → String) :
    ∀ (ds1 : List LeafD) (ls1 : List Value) (ds2 : List LeafD) (ls2 : List Value),
      ls1.length = ds1.length →
      parseFlat pf env (ds1 ++ ds2) (ls1 ++ ls2) =
        match parseFlat pf env ds1 ls1 with
        | (ls1', w, some e) => (ls1' ++ ls2, w, some e)
        | (ls1', w, none) =>
          (ls1' ++ (parseFlat pf env ds2 ls2).1, w ++ (parseFlat pf env ds2 ls2).2.1,
            (parseFlat pf env ds2 ls2).2.2) := by
  intro ds1
  induction ds1 with
  | nil =>
    intro ls1 ds2 ls2 hlen
    have hl : ls1 = [] := List.length_eq_zero.mp (by simpa using hlen)
    subst hl
    simp [parseFlat]
  | cons d ds ih =>
    intro ls1 ds2 ls2 hlen
    cases ls1 with
    | nil => simp at hlen
    | cons v ls =>
      have hlen' : ls.length = ds.length := by simpa using hlen
      rcases hstep : leafStep pf env d v with ⟨v', w, e⟩
      cases e with
      | some err => simp [parseFlat, hstep]
      | none =>
        rcases hrest : parseFlat pf env ds ls with ⟨ls', w2, e2⟩
        have hih := ih ls ds2 ls2 hlen'
        rw [hrest] at hih
        cases e2 with
        | some err2 => simp [parseFlat, hstep, hrest, hih]
        | none => simp [parseFlat, hstep, hrest, hih]

lemma parseFlat_err (pf : String → Bool) (env : String → String) :
    ∀ (ds : List LeafD) (ls ls' : List Value) (w : List (String × String)) (e : EnvyError),
      ls.length = ds.length →
      parseFlat pf env ds ls = (ls', w, some e) →
      ∃ k dk vk,
        ds[k]? = some dk ∧ ls[k]? = some vk ∧
        (leafStep pf env dk vk).2.2 = some e ∧
        ls' = ((ds.take k).zip (ls.take k)).map (fun p => (leafStep pf env p.1 p.2).1) ++
          ls.drop k ∧
        ∀ p ∈ (ds.take k).zip (ls.take k), (leafStep pf env p.1 p.2).2.2 = none := by
  intro ds
  induction ds with
  | nil => intro ls ls' w e hlen h; simp [parseFlat] at h
  | cons d ds ih =>
    intro ls ls' w e hlen h
    cases ls with
    | nil => simp at hlen
    | cons v vs =>
      have hlen' : vs.length = ds.length := by simpa using hlen
      rcases hstep : leafStep pf env d v with ⟨v', w0, e0⟩
      cases e0 with
      | some err =>
        have hpf : parseFlat pf env (d :: ds) (v :: vs) = (v' :: vs, w0, some err) := by
          simp [parseFlat, hstep]
        rw [hpf] at h
        obtain ⟨h1, h2, h3⟩ : v' :: vs = ls' ∧ w0 = w ∧ some err = some e := by
          simpa [Prod.ext_iff] using h
        have hv : v' = v := by
          have hev := leafStep_err_val pf env d v err (by rw [hstep])
          rwa [hstep] at hev
        refine ⟨0, d, v, by simp, by simp, ?_, ?_, ?_⟩
        · rw [hstep]; exact h3
        · rw [← h1, hv]; simp
        · simp
      | none =>
        rcases hrest : parseFlat pf env ds vs with ⟨ls2', w2, e2⟩
        have hpf : parseFlat pf env (d :: ds) (v :: vs) = (v' :: ls2', w0 ++ w2, e2) := by
          simp [parseFlat, hstep, hrest]
        rw [hpf] at h
        obtain ⟨h1, h2, h3⟩ : v' :: ls2' = ls' ∧ w0 ++ w2 = w ∧ e2 = some e := by
          simpa [Prod.ext_iff] using h
        obtain ⟨k, dk, vk, hk1, hk2, hk3, hk4, hk5⟩ :=
          ih vs ls2' w2 e hlen' (by rw [hrest, h3])
        refine ⟨k + 1, dk, vk, by simpa using hk1, by simpa using hk2, hk3, ?_, ?_⟩
        · rw [← h1, hk4]
          simp [hstep]
        · intro p hp
          simp only [List.take_succ_cons, List.zip_cons_cons, List.mem_cons] at hp
          rcases hp with hp | hp
          · subst hp
            simp [hstep]
          · exact hk5 p hp

lemma flattenV_length :
    ∀ (fs : List Field) (vs : List Value), conformsL fs vs = true →
      (flattenV fs vs).length = (flattenF fs).length := by
  intro fs vs
  induction fs, vs using conformsL.induct <;>
    simp_all [conformsL, flattenV, flattenF]

lemma parse_flatten (pf : String → Bool) (env : String → String) :
    ∀ (fs : List Field) (vs : List Value), conformsL fs vs = true →
      parseFlat pf env (flattenF fs) (flattenV fs vs) =
        (flattenV fs (parse pf env fs vs).1, (parse pf env fs vs).2.1,
          (parse pf env fs vs).2.2) ∧
      conformsL fs (parse pf env fs vs).1 = true := by
  intro fs vs
  induction fs, vs using parse.induct pf env with
  | case1 vs =>
    intro h
    cases vs with
    | nil => simp [parse, parseFlat, flattenF, flattenV, conformsL]
    | cons v vs => simp [conformsL] at h
  | case2 nm nfs fs nvs vs nvs' w e hin ih1 =>
    intro h
    obtain ⟨h1, h2⟩ : conformsL nfs nvs = true ∧ conformsL fs vs = true := by
      simpa [conformsL, Bool.and_eq_true] using h
    obtain ⟨ihe, ihc⟩ := ih1 h1
    rw [hin] at ihe ihc
    have hlen : (flattenV nfs nvs).length = (flattenF nfs).length :=
      flattenV_length nfs nvs h1
    constructor
    · rw [show flattenF (Field.nested nm nfs :: fs) = flattenF nfs ++ flattenF fs from by
          simp [flattenF],
        show flattenV (Field.nested nm nfs :: fs) (Value.vStruct nvs :: vs) =
          flattenV nfs nvs ++ flattenV fs vs from by simp [flattenV],
        parseFlat_append pf env (flattenF nfs) (flattenV nfs nvs) (flattenF fs)
          (flattenV fs vs) hlen, ihe]
      simp [parse, hin, flattenV]
    · simp [parse, hin, conformsL, ihc, h2]
  | case3 nm nfs fs nvs vs nvs' w hin vs' w2 e2 hrest ih1 ih2 =>
    intro h
    obtain ⟨h1, h2⟩ : conformsL nfs nvs = true ∧ conformsL fs vs = true := by
      simpa [conformsL, Bool.and_eq_true] using h
    obtain ⟨ihe1, ihc1⟩ := ih1 h1
    obtain ⟨ihe2, ihc2⟩ := ih2 h2
    rw [hin] at ihe1 ihc1
    rw [hrest] at ihe2 ihc2
    have hlen : (flattenV nfs nvs).length = (flattenF nfs).length :=
      flattenV_length nfs nvs h1
    constructor
    · rw [show flattenF (Field.nested nm nfs :: fs) = flattenF nfs ++ flattenF fs from by
          simp [flattenF],
        show flattenV (Field.nested nm nfs :: fs) (Value.vStruct nvs :: vs) =
          flattenV nfs nvs ++ flattenV fs vs from by simp [flattenV],
        parseFlat_append pf env (flattenF nfs) (flattenV nfs nvs) (flattenF fs)
          (flattenV fs vs) hlen, ihe1, ihe2]
      simp [parse, hin, hrest, flattenV]
    · simp [parse, hin, hrest, conformsL, ihc1, ihc2]
  | case4 nm nfs fs v vs hmis vs' w2 e2 hrest ih =>
    intro h
    exfalso
    cases v
    case vStruct nvs => exact hmis nvs rfl
    all_goals simp [conformsL] at h
  | case5 n t k d r fs v vs v' w e hstep =>
    intro h
    have h2 : conformsL fs vs = true := by simpa [conformsL] using h
    constructor
    · simp [parse, parseFlat, flattenF, flattenV, hstep]
    · simp [parse, hstep, conformsL, h2]
  | case6 n t k d r fs v vs v' w hstep vs' w2 e2 hrest ih =>
    intro h
    have h2 : conformsL fs vs = true := by simpa [conformsL] using h
    obtain ⟨ihe, ihc⟩ := ih h2
    rw [hrest] at ihe ihc
    constructor
    · simp [parse, parseFlat, flattenF, flattenV, hstep, hrest, ihe]
    · simp [parse, hstep, hrest, conformsL, ihc]
  | case7 f fs =>
    intro h
    exfalso
    cases f <;> simp [conformsL] at h




/-- C10: when `parse` returns an error, the target is partially mutated: in
the depth-first leaf order there is a failing leaf index `k` such that every
leaf before `k` holds the value its (error-free) binding step produced,
while the failing leaf and every leaf after it retain exactly the values
they had before the call — there is no rollback. -/
theorem C10_partial_mutation_on_error :
    ∀ (pf : String → Bool) (env : String → String) (fs : List Field)
      (vs vs' : List Value) (ws : List (String × String)) (e : EnvyError),
      conformsL fs vs = true →
      parse pf env fs vs = (vs', ws, some e) →
      ∃ k dk vk,
        (flattenF fs)[k]? = some dk ∧ (flattenV fs vs)[k]? = some vk ∧
        (leafStep pf env dk vk).2.2 = some e ∧
        flattenV fs vs' =
          (((flattenF fs).take k).zip ((flattenV fs vs).take k)).map
            (fun p => (leafStep pf env p.1 p.2).1) ++ (flattenV fs vs).drop k ∧
        ∀ p ∈ ((flattenF fs).take k).zip ((flattenV fs vs).take k),
          (leafStep pf env p.1 p.2).2.2 = none := by
  intro pf env fs vs vs' ws e hconf hp
  obtain ⟨heq, _⟩ := parse_flatten pf env fs vs hconf
  rw [hp] at heq
  exact parseFlat_err pf env (flattenF fs) (flattenV fs vs) (flattenV fs vs') ws e
    (flattenV_length fs vs hconf) heq

/-- Witness for C10: `C10_partial_mutation_on_error` at a three-leaf schema
whose second leaf (inside a nested record) fails: the first leaf holds its
newly bound value `7`, the failing leaf and the third keep their old
values. -/
theorem C10_witness :
    ∃ k dk vk,
      (flattenF fsC10)[k]? = some dk ∧ (flattenV fsC10 vsC10)[k]? = some vk ∧
      (leafStep (fun _ => false) envC10 dk vk).2.2 = some (.invalidInt "B") ∧
      flattenV fsC10 [Value.vInt 7, Value.vStruct [Value.vInt 1], Value.vStr "old"] =
        (((flattenF fsC10).take k).zip ((flattenV fsC10 vsC10).take k)).map
          (fun p => (leafStep (fun _ => false) envC10 p.1 p.2).1) ++
          (flattenV fsC10 vsC10).drop k ∧
      ∀ p ∈ ((flattenF fsC10).take k).zip ((flattenV fsC10 vsC10).take k),
        (leafStep (fun _ => false) envC10 p.1 p.2).2.2 = none :=
  C10_partial_mutation_on_error (fun _ => false) envC10 fsC10 vsC10
    [Value.vInt 7, Value.vStruct [Value.vInt 1], Value.vStr "old"] [] (.invalidInt "B")
    (by simp [fsC10, vsC10, conformsL])
    (by simp [fsC10, vsC10, parse, leafStep, leafBind, envC10, setField, parseInt64,
      parseDigits, parseDigits.go])
